import Mathlib

/-!
Verification of the flux-density calculator in b_plotter.py.

The program computes the on-axis magnetic flux density of two opposed
cylindrical magnets.  Its computational core is the function calc_B,
which converts millimeter inputs to meters, evaluates a closed-form
formula for the cylinder shape, returns NaN for unsupported shapes, and
masks to exactly 0 every sample whose position exceeds its distance.

Modelling choices:
- Python floats are modelled as real numbers.
- A NaN result is modelled as Option.none; a numeric result as some x.
- A 2D numpy array is modelled as a function Fin m → Fin n → ℝ.
- The scalar path (the except TypeError branch of the source) and the
  vectorized path (boolean mask assignment) are embedded separately, as
  calc_B and calc_B_grid.
-/

namespace BPlotter

noncomputable section

/-- The raw cylinder formula of calc_B (source lines 61-71): converts the
millimeter inputs dist, pos, mag_radius, mag_thick to meters and applies
the dual-pole superposition formula. -/
def calc_B_raw (dist pos B_rem mag_radius mag_thick : ℝ) : ℝ :=
  let dist_m := dist / 1000
  let pos_m := pos / 1000
  let mag_radius_m := mag_radius / 1000
  let mag_thick_m := mag_thick / 1000
  (B_rem / 2) * ((mag_thick_m + (dist_m + pos_m)) /
      Real.sqrt (mag_radius_m ^ 2 + (mag_thick_m + (dist_m + pos_m)) ^ 2)
    - (dist_m + pos_m) / Real.sqrt (mag_radius_m ^ 2 + (dist_m + pos_m) ^ 2))
  + (B_rem / 2) * ((mag_thick_m + (dist_m - pos_m)) /
      Real.sqrt (mag_radius_m ^ 2 + (mag_thick_m + (dist_m - pos_m)) ^ 2)
    - (dist_m - pos_m) / Real.sqrt (mag_radius_m ^ 2 + (dist_m - pos_m) ^ 2))

/-- Scalar path of calc_B (source lines 67-91): dispatch on mag_shape,
returning NaN (none) for every shape other than "cyl"; for "cyl" the mask
assignment raises TypeError on a scalar, and the except branch returns 0
when pos > dist and the formula value otherwise. -/
def calc_B (dist pos B_rem mag_radius mag_thick : ℝ) (mag_shape : String) :
    Option ℝ :=
  if mag_shape = "cyl" then
    if pos > dist then some 0
    else some (calc_B_raw dist pos B_rem mag_radius mag_thick)
  else none

/-- Vectorized path of calc_B (source lines 67-91) on a 2D grid: for "cyl"
the formula is evaluated elementwise and the mask assignment
B[pos > dist] = 0 zeroes every element with pos > dist; for any other
shape the function returns the scalar NaN (none). -/
def calc_B_grid {m n : ℕ} (dist pos : Fin m → Fin n → ℝ)
    (B_rem mag_radius mag_thick : ℝ) (mag_shape : String) :
    Option (Fin m → Fin n → ℝ) :=
  if mag_shape = "cyl" then
    some (fun i j =>
      if pos i j > dist i j then 0
      else calc_B_raw (dist i j) (pos i j) B_rem mag_radius mag_thick)
  else none

/-- The dual-pole superposition formula as displayed in the spec, in SI
meters: B(d,p) = (Br/2)*[(t+(d+p))/sqrt(r^2+(t+(d+p))^2) - (d+p)/sqrt(r^2+(d+p)^2)]
+ (Br/2)*[(t+(d-p))/sqrt(r^2+(t+(d-p))^2) - (d-p)/sqrt(r^2+(d-p)^2)].
Stated from the spec text, to be compared with calc_B_raw. -/
def spec_B_formula (d p r t Br : ℝ) : ℝ :=
  (Br / 2) * ((t + (d + p)) / Real.sqrt (r ^ 2 + (t + (d + p)) ^ 2)
    - (d + p) / Real.sqrt (r ^ 2 + (d + p) ^ 2))
  + (Br / 2) * ((t + (d - p)) / Real.sqrt (r ^ 2 + (t + (d - p)) ^ 2)
    - (d - p) / Real.sqrt (r ^ 2 + (d - p) ^ 2))

/-- One summand of the formula: g(u) = u / sqrt(r^2 + u^2).  Proof-side
abbreviation; calc_B_raw is literally a combination of gterm values. -/
def gterm (r u : ℝ) : ℝ := u / Real.sqrt (r ^ 2 + u ^ 2)

/-- The formula in terms of gterm, in SI meters. -/
def B_of (d p Br r t : ℝ) : ℝ :=
  (Br / 2) * (gterm r (t + (d + p)) - gterm r (d + p))
  + (Br / 2) * (gterm r (t + (d - p)) - gterm r (d - p))

theorem calc_B_raw_eq (dist pos B_rem mag_radius mag_thick : ℝ) :
    calc_B_raw dist pos B_rem mag_radius mag_thick
      = B_of (dist / 1000) (pos / 1000) B_rem (mag_radius / 1000)
          (mag_thick / 1000) := rfl

/- Module-level driver constants (source lines 29-37). -/

/-- Flux density remanence constant (source line 29). -/
def B_rem : ℝ := 1.21

/-- Magnet radius constant in mm (source line 31). -/
def mag_radius : ℝ := 7.62

/-- Magnet thickness constant in mm (source line 33). -/
def mag_thick : ℝ := 2.794

/-- Midpoint distance design envelope (source line 37). -/
def dist_range : ℝ × ℝ := (0, 25)

/-- np.linspace a b n: n evenly spaced samples over [a, b], both endpoints
included (source line 95 uses n = 100). -/
def linspace (a b : ℝ) (n : ℕ) : Fin n → ℝ :=
  fun i => a + (i.val : ℝ) * (b - a) / ((n : ℝ) - 1)

/-- The 1D sample vector dist = np.linspace(0.00, 25.00, 100). -/
def dist1d : Fin 100 → ℝ := linspace dist_range.1 dist_range.2 100

/-- First meshgrid output (source line 98): with default xy indexing,
np.meshgrid(dist, dist) gives DIST[i][j] = dist1d[j]. -/
def distGrid : Fin 100 → Fin 100 → ℝ := fun _ j => dist1d j

/-- Second meshgrid output (source line 98): POS[i][j] = dist1d[i]. -/
def posGrid : Fin 100 → Fin 100 → ℝ := fun i _ => dist1d i

/-- The driver flux grid B (source line 101): one vectorized call of
calc_B over the full grid. -/
def B_grid : Option (Fin 100 → Fin 100 → ℝ) :=
  calc_B_grid distGrid posGrid B_rem mag_radius mag_thick "cyl"

/- Mathematical helper lemmas about the formula. -/

/-- g(u) = u / sqrt(r^2 + u^2) is strictly increasing in u when r is
nonzero. -/
theorem gterm_lt (r : ℝ) (hr : r ≠ 0) {a b : ℝ} (hab : a < b) :
    gterm r a < gterm r b := by
  have hr2 : 0 < r ^ 2 := by positivity
  have hca : 0 < r ^ 2 + a ^ 2 := by positivity
  have hcb : 0 < r ^ 2 + b ^ 2 := by positivity
  have hsa : 0 < Real.sqrt (r ^ 2 + a ^ 2) := Real.sqrt_pos.mpr hca
  have hsb : 0 < Real.sqrt (r ^ 2 + b ^ 2) := Real.sqrt_pos.mpr hcb
  have hsa2 : Real.sqrt (r ^ 2 + a ^ 2) ^ 2 = r ^ 2 + a ^ 2 :=
    Real.sq_sqrt hca.le
  have hsb2 : Real.sqrt (r ^ 2 + b ^ 2) ^ 2 = r ^ 2 + b ^ 2 :=
    Real.sq_sqrt hcb.le
  unfold gterm
  rw [div_lt_div_iff₀ hsa hsb]
  rcases le_or_lt 0 a with ha | ha
  · have hb : 0 < b := lt_of_le_of_lt ha hab
    have habs : a ^ 2 < b ^ 2 := by nlinarith
    have hsq : (a * Real.sqrt (r ^ 2 + b ^ 2)) ^ 2
        < (b * Real.sqrt (r ^ 2 + a ^ 2)) ^ 2 := by
      rw [mul_pow, mul_pow, hsa2, hsb2]
      nlinarith [mul_lt_mul_of_pos_right habs hr2]
    exact lt_of_pow_lt_pow_left₀ 2 (mul_pos hb hsa).le hsq
  · rcases le_or_lt 0 b with hb | hb
    · have h1 : a * Real.sqrt (r ^ 2 + b ^ 2) < 0 :=
        mul_neg_of_neg_of_pos ha hsb
      have h2 : 0 ≤ b * Real.sqrt (r ^ 2 + a ^ 2) := mul_nonneg hb hsa.le
      linarith
    · have habs : b ^ 2 < a ^ 2 := by nlinarith
      have hsq : (-b * Real.sqrt (r ^ 2 + a ^ 2)) ^ 2
          < (-a * Real.sqrt (r ^ 2 + b ^ 2)) ^ 2 := by
        rw [mul_pow, mul_pow, hsa2, hsb2]
        nlinarith [mul_lt_mul_of_pos_right habs hr2]
      have h0 : 0 ≤ -a * Real.sqrt (r ^ 2 + b ^ 2) :=
        (mul_pos (neg_pos.mpr ha) hsb).le
      have := lt_of_pow_lt_pow_left₀ 2 h0 hsq
      linarith

/-- Each bracketed difference g(t + x) - g(x) is strictly positive for
positive thickness t and nonzero radius r. -/
theorem gterm_add_pos (r t x : ℝ) (hr : r ≠ 0) (ht : 0 < t) :
    0 < gterm r (t + x) - gterm r x :=
  sub_pos.mpr (gterm_lt r hr (lt_add_of_pos_left x ht))

/-- The unmasked formula value is strictly positive for positive
remanence and thickness and nonzero radius. -/
theorem B_of_pos (d p Br r t : ℝ) (hB : 0 < Br) (hr : r ≠ 0) (ht : 0 < t) :
    0 < B_of d p Br r t := by
  have h1 := gterm_add_pos r t (d + p) hr ht
  have h2 := gterm_add_pos r t (d - p) hr ht
  have hB2 : 0 < Br / 2 := by linarith
  have m1 := mul_pos hB2 h1
  have m2 := mul_pos hB2 h2
  unfold B_of
  linarith

/-- The raw cylinder formula is strictly positive for positive millimeter
inputs. -/
theorem calc_B_raw_pos (d p Br r t : ℝ) (hB : 0 < Br) (hr : 0 < r)
    (ht : 0 < t) : 0 < calc_B_raw d p Br r t := by
  rw [calc_B_raw_eq]
  exact B_of_pos _ _ _ _ _ hB (by positivity) (by positivity)

/-- The unmasked formula is symmetric in the sign of p: swapping p for -p
swaps the two magnet contributions. -/
theorem B_of_neg (d p Br r t : ℝ) : B_of d (-p) Br r t = B_of d p Br r t := by
  unfold B_of
  rw [show d + -p = d - p by ring, show d - -p = d + p by ring]
  ring

/-- g is invariant under scaling both radius and argument by a common
positive factor. -/
theorem gterm_scale (c r u : ℝ) (hc : 0 < c) :
    gterm (c * r) (c * u) = gterm r u := by
  unfold gterm
  have h1 : (c * r) ^ 2 + (c * u) ^ 2 = c ^ 2 * (r ^ 2 + u ^ 2) := by ring
  rw [h1, Real.sqrt_mul (by positivity), Real.sqrt_sq hc.le,
    mul_div_mul_left _ _ (ne_of_gt hc)]

/-- The formula is invariant under scaling all four geometric arguments
by a common positive factor. -/
theorem B_of_scale (d p Br r t c : ℝ) (hc : 0 < c) :
    B_of (c * d) (c * p) Br (c * r) (c * t) = B_of d p Br r t := by
  unfold B_of
  rw [show c * t + (c * d + c * p) = c * (t + (d + p)) by ring,
    show c * d + c * p = c * (d + p) by ring,
    show c * t + (c * d - c * p) = c * (t + (d - p)) by ring,
    show c * d - c * p = c * (d - p) by ring,
    gterm_scale c r _ hc, gterm_scale c r _ hc, gterm_scale c r _ hc,
    gterm_scale c r _ hc]

/- Claim theorems. -/

/-- Claim C1: for mag_shape = "cyl", every output element whose position
strictly exceeds its distance is exactly 0, overriding the raw formula
value, identically in the scalar path and the vectorized mask path. -/
theorem calc_B_mask_zero {m n : ℕ} (D P : Fin m → Fin n → ℝ)
    (d p Br r t : ℝ) (i : Fin m) (j : Fin n)
    (hs : p > d) (hg : P i j > D i j) :
    calc_B d p Br r t "cyl" = some 0 ∧
    (calc_B_grid D P Br r t "cyl").map (fun g => g i j) = some 0 := by
  refine ⟨by simp [calc_B, hs], by simp [calc_B_grid, hg]⟩

/-- Witness for C1 at dist = 0, pos = 5 (scalar and a 1x1 grid). -/
theorem calc_B_mask_zero_witness :
    calc_B 0 5 1.21 7.62 2.794 "cyl" = some 0 ∧
    (calc_B_grid (fun _ _ => (0 : ℝ)) (fun _ _ => (5 : ℝ)) 1.21 7.62 2.794
        "cyl").map (fun g => g (0 : Fin 1) (0 : Fin 1)) = some 0 :=
  calc_B_mask_zero (fun _ _ => (0 : ℝ)) (fun _ _ => (5 : ℝ)) 0 5 1.21 7.62
    2.794 0 0 (by norm_num) (by norm_num)

/-- Claim C2: for mag_shape = "cyl" and pos ≤ dist, the result is exactly
the dual-pole superposition formula of the spec, applied to the
millimeter inputs divided by 1000, with the remanence passed through
unchanged. -/
theorem calc_B_cyl_formula (d p Br r t : ℝ) (h : p ≤ d) :
    calc_B d p Br r t "cyl"
      = some (spec_B_formula (d / 1000) (p / 1000) (r / 1000) (t / 1000)
          Br) := by
  have hmask : ¬p > d := not_lt.mpr h
  simp only [calc_B, if_pos, hmask, if_false, if_true, reduceIte]
  rfl

/-- Witness for C2 at dist = 10, pos = 3. -/
theorem calc_B_cyl_formula_witness :
    calc_B 10 3 1.21 7.62 2.794 "cyl"
      = some (spec_B_formula (10 / 1000) (3 / 1000) (7.62 / 1000)
          (2.794 / 1000) 1.21) :=
  calc_B_cyl_formula 10 3 1.21 7.62 2.794 (by norm_num)

/-- Claim C3: for mag_shape "block", "ring", or any value other than
"cyl", the result is NaN (modelled none) for scalar input and for any 2D
grid, with no exception raised: both paths are total and return a value.
-/
theorem calc_B_unsupported_nan {m n : ℕ} (D P : Fin m → Fin n → ℝ)
    (d p Br r t : ℝ) (s : String) (hs : s ≠ "cyl") :
    calc_B d p Br r t s = none ∧ calc_B_grid D P Br r t s = none := by
  refine ⟨by simp [calc_B, hs], by simp [calc_B_grid, hs]⟩

/-- Witness for C3 with shape "block" on scalars and a 1x1 grid. -/
theorem calc_B_unsupported_nan_witness :
    calc_B 10 3 1.21 7.62 2.794 "block" = none ∧
    calc_B_grid (fun _ _ => (10 : ℝ)) (fun _ _ => (3 : ℝ)) 1.21 7.62 2.794
      "block" = (none : Option (Fin 1 → Fin 1 → ℝ)) :=
  calc_B_unsupported_nan (fun _ _ => (10 : ℝ)) (fun _ _ => (3 : ℝ)) 10 3
    1.21 7.62 2.794 "block" (by decide)

/-- Claim C4: evaluating calc_B vectorized over the 2D grid whose element
(i, j) carries distance distv i and position posv j, then extracting
element (i, j), gives exactly the scalar call on (distv i, posv j). -/
theorem calc_B_grid_scalar_consistent {m n : ℕ} (distv : Fin m → ℝ)
    (posv : Fin n → ℝ) (Br r t : ℝ) (i : Fin m) (j : Fin n) :
    (calc_B_grid (fun i _ => distv i) (fun _ j => posv j) Br r t
        "cyl").map (fun g => g i j)
      = calc_B (distv i) (posv j) Br r t "cyl" := by
  by_cases h : posv j > distv i <;> simp [calc_B, calc_B_grid, h]

/-- Counterexample to C5 as stated: at the valid distance d = 0 the
one-sided mask zeroes calc_B(0, 5) but not calc_B(0, -5), which keeps
the strictly positive formula value, so the result is not symmetric in
the sign of the position. -/
theorem calc_B_pos_sign_asymm :
    calc_B 0 5 1.21 7.62 2.794 "cyl"
      ≠ calc_B 0 (-5) 1.21 7.62 2.794 "cyl" := by
  have hpos : 0 < calc_B_raw 0 (-5) 1.21 7.62 2.794 :=
    calc_B_raw_pos 0 (-5) 1.21 7.62 2.794 (by norm_num) (by norm_num)
      (by norm_num)
  have h1 : calc_B 0 5 1.21 7.62 2.794 "cyl" = some 0 := by
    norm_num [calc_B]
  have h2 : calc_B 0 (-5) 1.21 7.62 2.794 "cyl"
      = some (calc_B_raw 0 (-5) 1.21 7.62 2.794) := by
    norm_num [calc_B]
  rw [h1, h2]
  intro hcontra
  have h0 := Option.some.inj hcontra
  linarith

/-- Claim C5 (amended): for every position p with |p| ≤ d (so that
neither p nor -p is masked), the "cyl" result is symmetric in the sign
of the position; the raw formula is symmetric for all d and p, but the
one-sided mask breaks the symmetry whenever p > d ≥ -p or -p > d ≥ p. -/
theorem calc_B_pos_sign_symm_in_envelope (d p Br r t : ℝ) (h : |p| ≤ d) :
    calc_B d p Br r t "cyl" = calc_B d (-p) Br r t "cyl" := by
  obtain ⟨hl, hu⟩ := abs_le.mp h
  have hm1 : ¬p > d := not_lt.mpr hu
  have hm2 : ¬-p > d := not_lt.mpr (neg_le.mp hl)
  simp only [calc_B, gt_iff_lt, hm1, hm2, if_false, reduceIte]
  rw [calc_B_raw_eq, calc_B_raw_eq, neg_div, B_of_neg]

/-- Witness for the amended C5 at d = 5, p = 3. -/
theorem calc_B_pos_sign_symm_in_envelope_witness :
    calc_B 5 3 1.21 7.62 2.794 "cyl"
      = calc_B 5 (-3) 1.21 7.62 2.794 "cyl" :=
  calc_B_pos_sign_symm_in_envelope 5 3 1.21 7.62 2.794
    (abs_le.mpr ⟨by norm_num, by norm_num⟩)

/-- Claim C6: scaling the four geometric inputs dist, pos, mag_radius,
mag_thick by a common positive factor c while holding B_rem fixed leaves
the "cyl" result unchanged, mask included. -/
theorem calc_B_scale_invariant (d p Br r t c : ℝ) (hc : 0 < c) :
    calc_B (c * d) (c * p) Br (c * r) (c * t) "cyl"
      = calc_B d p Br r t "cyl" := by
  have hmask : c * d < c * p ↔ d < p := mul_lt_mul_left hc
  by_cases h : p > d
  · simp [calc_B, h, hmask.mpr h]
  · have h2 : ¬c * p > c * d := fun hh => h (hmask.mp hh)
    simp only [calc_B, gt_iff_lt, h, h2, if_false, reduceIte]
    rw [calc_B_raw_eq, calc_B_raw_eq,
      show c * d / 1000 = c * (d / 1000) by ring,
      show c * p / 1000 = c * (p / 1000) by ring,
      show c * r / 1000 = c * (r / 1000) by ring,
      show c * t / 1000 = c * (t / 1000) by ring,
      B_of_scale _ _ _ _ _ c hc]

/-- Witness for C6: the spec concrete check, doubling (10, 0, 7.62,
2.794) with remanence 1.21 fixed. -/
theorem calc_B_scale_invariant_witness :
    calc_B (2 * 10) (2 * 0) 1.21 (2 * 7.62) (2 * 2.794) "cyl"
      = calc_B 10 0 1.21 7.62 2.794 "cyl" :=
  calc_B_scale_invariant 10 0 1.21 7.62 2.794 2 (by norm_num)

/-- Claim C7: the driver generates 100 evenly spaced samples over the
closed range [0, 25] including both endpoints (dist1d i = i * 25/99),
builds the square grid from the same 100 values on both axes (distGrid
draws the distance dist1d j and posGrid the position dist1d i for
element (i, j)), and the flux grid B_grid is a single vectorized
calc_B_grid call over those two 100 x 100 grids. -/
theorem driver_grid_spec :
    dist1d ⟨0, by norm_num⟩ = 0 ∧ dist1d ⟨99, by norm_num⟩ = 25 ∧
    (∀ i : Fin 100, dist1d i = (i.val : ℝ) * (25 / 99)) ∧
    (∀ i j : Fin 100, distGrid i j = dist1d j ∧ posGrid i j = dist1d i) ∧
    B_grid = calc_B_grid distGrid posGrid B_rem mag_radius mag_thick
        "cyl" := by
  have hall : ∀ i : Fin 100, dist1d i = (i.val : ℝ) * (25 / 99) := by
    intro i
    simp only [dist1d, linspace, dist_range]
    norm_num
    ring
  refine ⟨?_, ?_, hall, fun i j => ⟨rfl, rfl⟩, rfl⟩
  · rw [hall]
    norm_num
  · rw [hall]
    norm_num

/-- Claim C8: the mask uses a strict inequality, so at pos = dist the
analytic formula value is returned rather than 0, in both the scalar
path and the vectorized path. -/
theorem calc_B_face_boundary_formula {m n : ℕ} (D P : Fin m → Fin n → ℝ)
    (d p Br r t : ℝ) (i : Fin m) (j : Fin n)
    (hs : p = d) (hg : P i j = D i j) :
    calc_B d p Br r t "cyl" = some (calc_B_raw d p Br r t) ∧
    (calc_B_grid D P Br r t "cyl").map (fun g => g i j)
      = some (calc_B_raw (D i j) (P i j) Br r t) := by
  have h1 : ¬p > d := by rw [hs]; exact lt_irrefl d
  have h2 : ¬P i j > D i j := by rw [hg]; exact lt_irrefl _
  refine ⟨by simp [calc_B, h1], by simp [calc_B_grid, h2]⟩

/-- Witness for C8 at pos = dist = 5 (scalar and a 1x1 grid). -/
theorem calc_B_face_boundary_formula_witness :
    calc_B 5 5 1.21 7.62 2.794 "cyl"
      = some (calc_B_raw 5 5 1.21 7.62 2.794) ∧
    (calc_B_grid (fun _ _ => (5 : ℝ)) (fun _ _ => (5 : ℝ)) 1.21 7.62 2.794
        "cyl").map (fun g => g (0 : Fin 1) (0 : Fin 1))
      = some (calc_B_raw 5 5 1.21 7.62 2.794) :=
  calc_B_face_boundary_formula (fun _ _ => (5 : ℝ)) (fun _ _ => (5 : ℝ))
    5 5 1.21 7.62 2.794 0 0 rfl rfl

/-- Claim C9: for any shape other than "cyl" the function returns NaN
(none) before the masking step is reached, so even where pos > dist the
result is NaN, never the masked 0 - in both paths. -/
theorem calc_B_unsupported_no_mask {m n : ℕ} (D P : Fin m → Fin n → ℝ)
    (d p Br r t : ℝ) (s : String) (hs : s ≠ "cyl") (_hp : p > d) :
    calc_B d p Br r t s = none ∧ calc_B d p Br r t s ≠ some 0 ∧
    calc_B_grid D P Br r t s = none := by
  refine ⟨by simp [calc_B, hs], by simp [calc_B, hs],
    by simp [calc_B_grid, hs]⟩

/-- Witness for C9 with shape "ring" at dist = 0, pos = 5. -/
theorem calc_B_unsupported_no_mask_witness :
    calc_B 0 5 1.21 7.62 2.794 "ring" = none ∧
    calc_B 0 5 1.21 7.62 2.794 "ring" ≠ some 0 ∧
    calc_B_grid (fun _ _ => (0 : ℝ)) (fun _ _ => (5 : ℝ)) 1.21 7.62 2.794
      "ring" = (none : Option (Fin 1 → Fin 1 → ℝ)) :=
  calc_B_unsupported_no_mask (fun _ _ => (0 : ℝ)) (fun _ _ => (5 : ℝ))
    0 5 1.21 7.62 2.794 "ring" (by decide) (by norm_num)

/-- Claim C10: with positive remanence, radius and thickness, the
unmasked "cyl" formula value is strictly positive for all real dist and
pos, so every returned value - the formula value or the masked 0 - is
nonnegative, in both paths. -/
theorem calc_B_nonneg {m n : ℕ} (D P : Fin m → Fin n → ℝ)
    (d p Br r t : ℝ) (i : Fin m) (j : Fin n)
    (hB : 0 < Br) (hr : 0 < r) (ht : 0 < t) :
    0 < calc_B_raw d p Br r t ∧
    (∀ v, calc_B d p Br r t "cyl" = some v → 0 ≤ v) ∧
    (∀ G, calc_B_grid D P Br r t "cyl" = some G → 0 ≤ G i j) := by
  have hraw : ∀ d' p' : ℝ, 0 < calc_B_raw d' p' Br r t := fun d' p' =>
    calc_B_raw_pos d' p' Br r t hB hr ht
  refine ⟨hraw d p, ?_, ?_⟩
  · intro v hv
    by_cases h : p > d
    · simp only [calc_B, if_true, reduceIte, h, if_pos,
        Option.some.injEq] at hv
      linarith
    · simp only [calc_B, gt_iff_lt, h, if_false, reduceIte,
        Option.some.injEq] at hv
      have := hraw d p
      linarith
  · intro G hG
    simp only [calc_B_grid, reduceIte, Option.some.injEq] at hG
    rw [← hG]
    by_cases h : P i j > D i j
    · simp [h]
    · simp only [gt_iff_lt, h, if_false, reduceIte]
      exact (hraw (D i j) (P i j)).le

/-- Witness for C10 with the driver constants at dist = 10, pos = 3 and
a 1x1 grid. -/
theorem calc_B_nonneg_witness :
    0 < calc_B_raw 10 3 1.21 7.62 2.794 ∧
    (∀ v, calc_B 10 3 1.21 7.62 2.794 "cyl" = some v → 0 ≤ v) ∧
    (∀ G : Fin 1 → Fin 1 → ℝ,
      calc_B_grid (fun _ _ => (10 : ℝ)) (fun _ _ => (3 : ℝ)) 1.21 7.62
        2.794 "cyl" = some G → 0 ≤ G 0 0) :=
  calc_B_nonneg (fun _ _ => (10 : ℝ)) (fun _ _ => (3 : ℝ)) 10 3 1.21 7.62
    2.794 0 0 (by norm_num) (by norm_num) (by norm_num)

end

end BPlotter
